import Mathlib

/-!
Shallow embedding of the agent-orch repository: the MCP execution gateway,
its tool registry, the sandboxed file executors, the permission-constrained
agent wrapper layer, and the deterministic task orchestrator, together with
theorems settling the behavioural claims about them.

Strings are modelled with Lean `String` (UTF-8 code points; all inputs of
interest are ASCII), POSIX path handling mirrors Node's `path.posix`
functions, and the effectful pieces (filesystem, OS metrics, agent calls)
are modelled as explicit oracles threaded through the definitions.
-/

namespace AgentOrch

/-! ## Character and list utilities -/

/-- Word characters as matched by the JavaScript regex class `\w`:
ASCII letters, digits and underscore. -/
def isWordChar (c : Char) : Bool := c.isAlpha || c.isDigit || c = '_'

/-- Two consecutive dots occur somewhere in the character list.  This is the
substring test `p.includes('..')` used by the zod path refinement. -/
def hasDD : List Char → Bool
  | [] => false
  | [_] => false
  | a :: b :: rest => (a = '.' && b = '.') || hasDD (b :: rest)

/-- The character-list `a` occurs contiguously inside `b`. -/
def chunkWithin (a : List Char) : List Char → Bool
  | [] => a.isEmpty
  | c :: bs => a.isPrefixOf (c :: bs) || chunkWithin a bs

/-- The string `a` occurs contiguously (verbatim) inside `b`. -/
def strWithin (a b : String) : Bool := chunkWithin a.data b.data

/-- The keyword `w` matches at the start of `s` with a word boundary on the
right: `w` is a prefix of `s` and the next character, if any, is not a word
character. -/
def matchWordAt (w s : List Char) : Bool :=
  w.isPrefixOf s &&
    (match (s.drop w.length).head? with
     | none => true
     | some c => !isWordChar c)

/-- Scan `s` for a word-boundary occurrence of the keyword `w`; `prevWord`
records whether the character just before the current position is a word
character (so that the left boundary of the JavaScript `\b` holds). -/
def scanWord (w : List Char) : Bool → List Char → Bool
  | _, [] => false
  | prevWord, c :: cs =>
    ((!prevWord) && matchWordAt w (c :: cs)) || scanWord w (isWordChar c) cs

/-- `containsWord w s` holds when the regex `\bw\b` matches somewhere in `s`
(for keywords made of word characters only, as all the router keywords are). -/
def containsWord (w s : String) : Bool := scanWord w.data false s.data

/-- Lower-case a string character by character (the effect of JavaScript
`toLowerCase()` on the ASCII inputs the router deals with). -/
def lowerStr (s : String) : String := String.mk (s.data.map Char.toLower)

/-! ## Node `path.posix` model

The file executors use `normalize`, `join`, `resolve` and `startsWith` from
Node.  POSIX paths are processed segment-wise: split on `/`, drop empty and
`.` segments, and let `..` pop the previous segment (or survive at the front
of a relative path). -/

/-- Split a character list on `/` separators, keeping empty segments. -/
def splitSl : List Char → List (List Char)
  | [] => [[]]
  | c :: cs =>
    if c = '/' then [] :: splitSl cs
    else
      match splitSl cs with
      | [] => [[c]]
      | s :: ss => (c :: s) :: ss

/-- The `..` segment. -/
def ddSeg : List Char := ['.', '.']

/-- The `.` segment. -/
def dotSeg : List Char := ['.']

/-- One step of Node's `normalizeString` segment processing.  The stack holds
the output segments most recent first.  Empty and `.` segments are dropped;
`..` pops the previous segment, except that at the top of a relative path
(`allowAbove = true`) it is kept, and at the root of an absolute path it is
discarded. -/
def procSeg (allowAbove : Bool) (stack : List (List Char)) (seg : List Char) :
    List (List Char) :=
  if seg = [] || seg = dotSeg then stack
  else if seg = ddSeg then
    match stack with
    | [] => if allowAbove then [ddSeg] else []
    | top :: rest => if top = ddSeg then ddSeg :: top :: rest else rest
  else seg :: stack

/-- Process a whole segment list, returning the surviving segments in order. -/
def procSegs (allowAbove : Bool) (segs : List (List Char)) : List (List Char) :=
  (segs.foldl (procSeg allowAbove) []).reverse

/-- The segments that survive processing when no `..` is involved: non-empty
segments other than `.`. -/
def keepSeg (s : List Char) : Bool := !(s = [] || s = dotSeg)

/-- Interleave `/` between segments. -/
def joinSegs : List (List Char) → List Char
  | [] => []
  | [s] => s
  | s :: rest => s ++ '/' :: joinSegs rest

/-- Node's `path.posix.normalize`. -/
def nodeNormalize (p : String) : String :=
  match p.data with
  | [] => "."
  | c :: cs =>
    let isAbs := c = '/'
    let trail := (c :: cs).getLast? = some '/'
    let core := joinSegs (procSegs (!isAbs) (splitSl (c :: cs)))
    if core = [] then
      if isAbs then "/" else if trail then "./" else "."
    else
      String.mk ((if isAbs then ['/'] else []) ++ core ++ (if trail then ['/'] else []))

/-- Node's `path.posix.join` restricted to two arguments: concatenate the
non-empty arguments with a slash and normalize. -/
def nodeJoin (a b : String) : String :=
  if a = "" && b = "" then "."
  else if a = "" then nodeNormalize b
  else if b = "" then nodeNormalize a
  else nodeNormalize (a ++ "/" ++ b)

/-- Node's `path.posix.resolve` applied to a single absolute path (the only
way the executors use it): re-normalize without allowing segments above the
root and without a trailing slash. -/
def nodeResolve (q : String) : String :=
  String.mk ('/' :: joinSegs (procSegs false (splitSl q.data)))

/-- The sandbox root directory used by both file executors: the default value
of `MCP_SANDBOX_DIR` when the environment does not override it. -/
def SANDBOX_DIR : String := "/tmp/mcp-sandbox"

/-- The resolved sandbox root, `resolve(SANDBOX_DIR)`. -/
def resolvedRoot : String := nodeResolve SANDBOX_DIR

/-- First segment of the sandbox root. -/
def tmpSeg : List Char := ['t', 'm', 'p']

/-- Second segment of the sandbox root. -/
def mcpSeg : List Char := ['m', 'c', 'p', '-', 's', 'a', 'n', 'd', 'b', 'o', 'x']

/-- The absolute resolution of a caller-supplied path against the sandbox
root, exactly as both file executors compute it:
`resolve(join(SANDBOX_DIR, normalize(path)))`. -/
def resolveAgainstSandbox (p : String) : String :=
  nodeResolve (nodeJoin SANDBOX_DIR (nodeNormalize p))

/-- `f` lies strictly within the resolved sandbox root: it is a proper
descendant (the root followed by a separator is a prefix). -/
def strictlyWithinRoot (f : String) : Bool :=
  (resolvedRoot ++ "/").data.isPrefixOf f.data

/-- `f` lies within the resolved sandbox root: it is the root itself or a
descendant of it. -/
def withinRoot (f : String) : Bool :=
  f = resolvedRoot || (resolvedRoot ++ "/").data.isPrefixOf f.data

/-! ## MCP core types (`src/mcp-server/src/types/mcp.ts`) -/

/-- Safety classification for tools. -/
inductive ToolSafety
  | safe
  | dangerous
deriving DecidableEq, Repr

/-- Execution context passed to every tool (timestamps are abstract ticks). -/
structure ExecutionContext where
  dryRun : Bool
  timestamp : Nat
  requestId : String
deriving DecidableEq, Repr

/-- Memory block of the system-info output. -/
structure MemoryInfo where
  total : Int
  free : Int
  used : Int
  usedPercent : Int
deriving DecidableEq, Repr

/-- Output payload of the system-info executor. -/
structure SystemInfoOutput where
  platform : Option String := none
  arch : Option String := none
  memory : Option MemoryInfo := none
  uptime : Option Int := none
  nodeVersion : Option String := none
deriving DecidableEq, Repr

/-- Output payload of the file-read executor. -/
structure FileReadOutput where
  path : String
  content : String
  size : Nat
  encoding : String
deriving DecidableEq, Repr

/-- Output payload of the file-write executor. -/
structure FileWriteOutput where
  path : String
  bytesWritten : Nat
  mode : String
deriving DecidableEq, Repr

/-- The opaque data payload of an execution result: one of the three tools'
output shapes. -/
inductive OutData
  | sysInfo (o : SystemInfoOutput)
  | fRead (o : FileReadOutput)
  | fWrite (o : FileWriteOutput)
deriving DecidableEq, Repr

/-- Result of tool execution. -/
structure ToolExecutionResult where
  success : Bool
  data : Option OutData := none
  error : Option String := none
  simulatedAction : Option String := none
deriving DecidableEq, Repr

/-! ## Tool input shapes (the zod schemas of the tool definitions) -/

/-- Encoding accepted by the file-read schema. -/
inductive ReadEncoding
  | utf8
  | base64
deriving DecidableEq, Repr

/-- The wire string of an encoding. -/
def ReadEncoding.str : ReadEncoding → String
  | .utf8 => "utf-8"
  | .base64 => "base64"

/-- Validated file-read inputs. -/
structure FileReadInput where
  path : String
  maxBytes : Int
  encoding : ReadEncoding
deriving DecidableEq, Repr

/-- Write mode accepted by the file-write schema. -/
inductive WriteMode
  | overwrite
  | append
deriving DecidableEq, Repr

/-- The wire string of a write mode. -/
def WriteMode.str : WriteMode → String
  | .overwrite => "overwrite"
  | .append => "append"

/-- Validated file-write inputs. -/
structure FileWriteInput where
  path : String
  content : String
  mode : WriteMode
  createDirs : Bool
deriving DecidableEq, Repr

/-- Categories accepted by the system-info schema. -/
inductive SysCategory
  | platform
  | memory
  | uptime
  | nodeVersion
deriving DecidableEq, Repr

/-- Validated system-info inputs (`include` is a Lean keyword, hence the
primed field name). -/
structure SystemInfoInput where
  include' : List SysCategory
deriving DecidableEq, Repr

/-- Validated inputs of any registered tool. -/
inductive ValidatedInput
  | sysInfo (i : SystemInfoInput)
  | fRead (i : FileReadInput)
  | fWrite (i : FileWriteInput)
deriving DecidableEq, Repr

/-! ## Raw request values -/

/-- JSON-ish values appearing in the `inputs` record of a call request. -/
inductive JVal
  | str (s : String)
  | num (n : Int)
  | boolean (b : Bool)
  | arr (xs : List JVal)

/-- The raw `inputs` record of a call request: field name to value. -/
abbrev RawInputs := List (String × JVal)

/-- Look up a field of the raw inputs record. -/
def getField (raw : RawInputs) (key : String) : Option JVal :=
  (raw.find? (fun kv => kv.1 = key)).map (fun kv => kv.2)

/-- Incoming tool call request, as parsed by `ToolCallRequestSchema`: a tool
name, a record of inputs (defaulting to empty) and an optional intent string.
The schema admits no other field — in particular no dry-run flag. -/
structure ToolCallRequest where
  tool : String
  inputs : RawInputs := []
  intent : Option String := none

/-- The issue list of a failed validation. -/
def errsOf : Except (List String) α → List String
  | .error es => es
  | .ok _ => []

/-! ## Schema validators (zod parse of each tool's input schema) -/

/-- Parse the file-read input schema: `path` a non-empty string without the
substring `..`, `maxBytes` an integer in `[1, 1000000]` defaulting to
`10000`, `encoding` one of `utf-8`/`base64` defaulting to `utf-8`.
Issues of the individual fields are collected in field order. -/
def parseFileReadInputs (raw : RawInputs) : Except (List String) FileReadInput :=
  let pathRes : Except (List String) String :=
    match getField raw "path" with
    | none => .error ["Required"]
    | some (JVal.str s) =>
      if s.length < 1 then .error ["Path cannot be empty"]
      else if hasDD s.data then .error ["Path traversal not allowed"]
      else .ok s
    | some _ => .error ["Expected string, received other"]
  let maxBytesRes : Except (List String) Int :=
    match getField raw "maxBytes" with
    | none => .ok 10000
    | some (JVal.num n) =>
      if n < 1 then .error ["Number must be greater than or equal to 1"]
      else if n > 1000000 then .error ["Number must be less than or equal to 1000000"]
      else .ok n
    | some _ => .error ["Expected number, received other"]
  let encodingRes : Except (List String) ReadEncoding :=
    match getField raw "encoding" with
    | none => .ok .utf8
    | some (JVal.str "utf-8") => .ok .utf8
    | some (JVal.str "base64") => .ok .base64
    | some _ => .error ["Invalid enum value"]
  match pathRes, maxBytesRes, encodingRes with
  | .ok p, .ok m, .ok e => .ok {path := p, maxBytes := m, encoding := e}
  | _, _, _ => .error (errsOf pathRes ++ errsOf maxBytesRes ++ errsOf encodingRes)

/-- Parse the file-write input schema: `path` as for file-read, `content` a
string of at most 100000 units, `mode` one of `overwrite`/`append` defaulting
to `overwrite`, `createDirs` a boolean defaulting to `false`. -/
def parseFileWriteInputs (raw : RawInputs) : Except (List String) FileWriteInput :=
  let pathRes : Except (List String) String :=
    match getField raw "path" with
    | none => .error ["Required"]
    | some (JVal.str s) =>
      if s.length < 1 then .error ["Path cannot be empty"]
      else if hasDD s.data then .error ["Path traversal not allowed"]
      else .ok s
    | some _ => .error ["Expected string, received other"]
  let contentRes : Except (List String) String :=
    match getField raw "content" with
    | none => .error ["Required"]
    | some (JVal.str s) =>
      if s.length > 100000 then .error ["Content too large (max 100KB)"] else .ok s
    | some _ => .error ["Expected string, received other"]
  let modeRes : Except (List String) WriteMode :=
    match getField raw "mode" with
    | none => .ok .overwrite
    | some (JVal.str "overwrite") => .ok .overwrite
    | some (JVal.str "append") => .ok .append
    | some _ => .error ["Invalid enum value"]
  let createDirsRes : Except (List String) Bool :=
    match getField raw "createDirs" with
    | none => .ok false
    | some (JVal.boolean b) => .ok b
    | some _ => .error ["Expected boolean, received other"]
  match pathRes, contentRes, modeRes, createDirsRes with
  | .ok p, .ok c, .ok m, .ok d =>
    .ok {path := p, content := c, mode := m, createDirs := d}
  | _, _, _, _ =>
    .error (errsOf pathRes ++ errsOf contentRes ++ errsOf modeRes ++ errsOf createDirsRes)

/-- Parse one element of the system-info `include` array. -/
def parseSysCategory : JVal → Except (List String) SysCategory
  | JVal.str "platform" => .ok .platform
  | JVal.str "memory" => .ok .memory
  | JVal.str "uptime" => .ok .uptime
  | JVal.str "nodeVersion" => .ok .nodeVersion
  | _ => .error ["Invalid enum value"]

/-- Parse the system-info input schema: `include` an array over the category
enum, defaulting to `[platform, nodeVersion]`. -/
def parseSystemInfoInputs (raw : RawInputs) : Except (List String) SystemInfoInput :=
  match getField raw "include" with
  | none => .ok {include' := [.platform, .nodeVersion]}
  | some (JVal.arr xs) =>
    let parsed := xs.map parseSysCategory
    if parsed.all (fun r => match r with | .ok _ => true | .error _ => false) then
      .ok {include' := parsed.filterMap (fun r => match r with | .ok c => some c | .error _ => none)}
    else
      .error (parsed.foldr (fun r acc => errsOf r ++ acc) [])
  | some _ => .error ["Expected array, received other"]

/-! ## Oracles for the effectful environment -/

/-- A file buffer as the file-read executor consumes it: its byte length and
its decoding under each supported encoding. -/
structure FileBuf where
  len : Nat
  utf8 : String
  base64 : String

/-- Filesystem oracle: what `readFile` yields for each absolute path
(`error` models a thrown filesystem exception). -/
abbrev FsOracle := String → Except String FileBuf

/-- OS metrics oracle for the system-info executor. -/
structure OsOracle where
  platform : String
  arch : String
  totalmem : Int
  freemem : Int
  uptime : Int
  nodeVersion : String

/-- Filesystem accesses an executor performs. -/
inductive FsEffect
  | read (path : String)
  | write (path : String)
deriving DecidableEq, Repr

/-! ## Executors -/

/-- UTF-8 byte length of a string (`Buffer.byteLength(s, 'utf-8')`). -/
def utf8Len (s : String) : Nat := s.utf8ByteSize

/-- Integer model of `Math.round((used / total) * 100)` (exact rational
rounding; no claim below depends on this value). -/
def jsRound100 (used total : Int) : Int :=
  if total = 0 then 0 else (200 * used + total) / (2 * total)

/-- The file-read executor (`src/.../executors/file-read.ts`): resolve the
path against the sandbox, reject escapes, read the file through the oracle,
enforce the byte budget, and decode.  The effect list records each attempted
`readFile`. -/
def fileReadExecutor (fs : FsOracle) (input : FileReadInput)
    (_context : ExecutionContext) : ToolExecutionResult × List FsEffect :=
  let normalizedPath := nodeNormalize input.path
  let fullPath := nodeResolve (nodeJoin SANDBOX_DIR normalizedPath)
  if !((nodeResolve SANDBOX_DIR).data.isPrefixOf fullPath.data) then
    ({success := false, error := some "Path escapes sandbox directory"}, [])
  else
    match fs fullPath with
    | .error e =>
      ({success := false, error := some ("Failed to read file: " ++ e)},
       [.read fullPath])
    | .ok buffer =>
      if (buffer.len : Int) > input.maxBytes then
        ({success := false,
          error := some ("File size (" ++ toString buffer.len ++
            " bytes) exceeds limit (" ++ toString input.maxBytes ++ " bytes)")},
         [.read fullPath])
      else
        ({success := true,
          data := some (.fRead {
            path := normalizedPath,
            content := if input.encoding = .base64 then buffer.base64 else buffer.utf8,
            size := buffer.len,
            encoding := input.encoding.str})},
         [.read fullPath])

/-- The file-write executor (`src/.../executors/file-write.ts`): resolve and
check the path, then either describe the simulated write (dry-run) or refuse.
No branch performs a filesystem write, so the effect list is always empty. -/
def fileWriteExecutor (input : FileWriteInput) (context : ExecutionContext) :
    ToolExecutionResult × List FsEffect :=
  let normalizedPath := nodeNormalize input.path
  let fullPath := nodeResolve (nodeJoin SANDBOX_DIR normalizedPath)
  if !((nodeResolve SANDBOX_DIR).data.isPrefixOf fullPath.data) then
    ({success := false, error := some "Path escapes sandbox directory"}, [])
  else if context.dryRun then
    ({success := true,
      data := some (.fWrite {
        path := normalizedPath,
        bytesWritten := utf8Len input.content,
        mode := input.mode.str}),
      simulatedAction := some ("Would " ++ input.mode.str ++ " " ++
        toString (utf8Len input.content) ++ " bytes to " ++ fullPath ++
        (if input.createDirs then " (creating parent directories)" else ""))},
     [])
  else
    ({success := false,
      error := some "Write operations are disabled. This tool runs in dry-run mode only."},
     [])

/-- Apply one requested system-info category to the accumulating output. -/
def applySysCategory (os : OsOracle) (d : SystemInfoOutput) :
    SysCategory → SystemInfoOutput
  | .platform => {d with platform := some os.platform, arch := some os.arch}
  | .memory =>
    let used := os.totalmem - os.freemem
    {d with memory := some {
      total := os.totalmem, free := os.freemem, used := used,
      usedPercent := jsRound100 used os.totalmem}}
  | .uptime => {d with uptime := some os.uptime}
  | .nodeVersion => {d with nodeVersion := some os.nodeVersion}

/-- The system-info executor (`src/.../executors/system-info.ts`): fold the
requested categories into the output record; always succeeds, touches no
files. -/
def systemInfoExecutor (os : OsOracle) (input : SystemInfoInput)
    (_context : ExecutionContext) : ToolExecutionResult × List FsEffect :=
  ({success := true,
    data := some (.sysInfo (input.include'.foldl (applySysCategory os) {}))},
   [])

/-! ## Tool registry (`src/.../tools/index.ts`) -/

/-- Tool definition: what a tool promises, minus its execution logic.  The
input schema is represented by the paired validator below. -/
structure ToolDefinition where
  name : String
  description : String
  intent : String
  safety : ToolSafety
deriving DecidableEq, Repr

/-- A registered tool: its definition paired with its input validator and its
executor.  The executor may signal a thrown exception through `Except.error`;
its second component lists the filesystem accesses performed. -/
structure RegisteredTool where
  definition : ToolDefinition
  validate : RawInputs → Except (List String) ValidatedInput
  executor : FsOracle → OsOracle → ValidatedInput → ExecutionContext →
    Except String ToolExecutionResult × List FsEffect

/-- The registry: tool name to registered tool, in registration order. -/
abbrev Registry := List (String × RegisteredTool)

/-- `toolRegistry.get(name)`. -/
def registryGet (reg : Registry) (name : String) : Option RegisteredTool :=
  (reg.find? (fun kv => kv.1 = name)).map (fun kv => kv.2)

/-- The system-info registration. -/
def systemInfoRegistered : RegisteredTool := {
  definition := {
    name := "system-info",
    description := "Retrieve basic system information such as platform, memory usage, uptime, and Node.js version.",
    intent := "Provides read-only system diagnostics for context awareness. Useful for agents that need to understand the runtime environment.",
    safety := .safe},
  validate := fun raw => (parseSystemInfoInputs raw).map .sysInfo,
  executor := fun _fs os vi ctx =>
    match vi with
    | .sysInfo i =>
      let (r, eff) := systemInfoExecutor os i ctx
      (.ok r, eff)
    | _ => (.error "TypeError: invalid input shape", [])}

/-- The file-read registration. -/
def fileReadRegistered : RegisteredTool := {
  definition := {
    name := "file-read",
    description := "Read the contents of a file from a sandboxed directory.",
    intent := "Enables agents to access configuration files, logs, or data files within a restricted area. Path traversal is blocked to prevent unauthorized access.",
    safety := .safe},
  validate := fun raw => (parseFileReadInputs raw).map .fRead,
  executor := fun fs _os vi ctx =>
    match vi with
    | .fRead i =>
      let (r, eff) := fileReadExecutor fs i ctx
      (.ok r, eff)
    | _ => (.error "TypeError: invalid input shape", [])}

/-- The file-write registration (the only dangerous tool). -/
def fileWriteRegistered : RegisteredTool := {
  definition := {
    name := "file-write",
    description := "Write content to a file in a sandboxed directory. DANGEROUS: Runs in dry-run mode only.",
    intent := "Allows agents to persist data, create configurations, or generate output files. Marked as dangerous due to filesystem mutation - all executions simulate the write without actually performing it.",
    safety := .dangerous},
  validate := fun raw => (parseFileWriteInputs raw).map .fWrite,
  executor := fun _fs _os vi ctx =>
    match vi with
    | .fWrite i =>
      let (r, eff) := fileWriteExecutor i ctx
      (.ok r, eff)
    | _ => (.error "TypeError: invalid input shape", [])}

/-- The populated registry, in registration order. -/
def toolRegistry : Registry :=
  [("system-info", systemInfoRegistered),
   ("file-read", fileReadRegistered),
   ("file-write", fileWriteRegistered)]

/-! ## Execution gateway (`POST /mcp/call` handler in the server) -/

/-- One audit log entry. -/
structure AuditLogEntry where
  timestamp : Nat
  requestId : String
  toolName : String
  intent : String
  inputs : ValidatedInput
  result : String
  dryRun : Bool
  error : Option String := none
  durationMs : Nat
deriving DecidableEq, Repr

/-- Caller-facing response of a completed (executed or thrown) call. -/
structure ToolCallResponse where
  tool : String
  success : Bool
  result : Option OutData
  error : Option String
  dryRun : Bool
  timestamp : Nat
  requestId : String
  simulatedAction : Option String
deriving DecidableEq, Repr

/-- The reply of the gateway, with its HTTP status: a 404 for an unknown
tool, a 400 with field issues for inputs the tool schema rejects, or a
response object (200, 422 or 500). -/
inductive GatewayReply
  | notFound (status : Nat) (error : String)
  | invalidInputs (status : Nat) (error : String) (tool : String) (details : List String)
  | call (status : Nat) (response : ToolCallResponse)
deriving DecidableEq, Repr

/-- Everything one gateway invocation produces: the reply, the audit entries
appended to the sink, and the filesystem accesses performed. -/
structure GatewayOutcome where
  reply : GatewayReply
  audit : List AuditLogEntry
  effects : List FsEffect
deriving Repr

/-- The `/mcp/call` handler: look the tool up, validate the inputs against
its schema, derive the execution context with
`dryRun = (definition.safety == dangerous)`, run the executor catching any
thrown error, append one audit entry for every executed attempt, and build
the response.  A missing tool and invalid inputs return early without an
audit entry, exactly as the source does. -/
def gatewayInvoke (reg : Registry) (fs : FsOracle) (os : OsOracle)
    (requestId : String) (now durationMs : Nat) (req : ToolCallRequest) :
    GatewayOutcome :=
  match registryGet reg req.tool with
  | none =>
    {reply := .notFound 404 ("Tool not found: " ++ req.tool),
     audit := [], effects := []}
  | some tool =>
    match tool.validate req.inputs with
    | .error issues =>
      {reply := .invalidInputs 400 "Invalid tool inputs" req.tool issues,
       audit := [], effects := []}
    | .ok validatedInputs =>
      let dryRun : Bool := tool.definition.safety = .dangerous
      let context : ExecutionContext :=
        {dryRun := dryRun, timestamp := now, requestId := requestId}
      let auditIntent :=
        match req.intent with
        | some s => if s = "" then tool.definition.intent else s
        | none => tool.definition.intent
      match tool.executor fs os validatedInputs context with
      | (.ok result, effects) =>
        let auditEntry : AuditLogEntry := {
          timestamp := now, requestId := requestId, toolName := req.tool,
          intent := auditIntent, inputs := validatedInputs,
          result := if result.success then "success" else "error",
          dryRun := dryRun, error := result.error, durationMs := durationMs}
        let response : ToolCallResponse := {
          tool := req.tool, success := result.success, result := result.data,
          error := result.error, dryRun := dryRun, timestamp := now,
          requestId := requestId,
          simulatedAction :=
            match result.simulatedAction with
            | some s => if s = "" then none else some s
            | none => none}
        {reply := .call (if result.success then 200 else 422) response,
         audit := [auditEntry], effects := effects}
      | (.error errorMessage, effects) =>
        let auditEntry : AuditLogEntry := {
          timestamp := now, requestId := requestId, toolName := req.tool,
          intent := auditIntent, inputs := validatedInputs,
          result := "error", dryRun := dryRun, error := some errorMessage,
          durationMs := durationMs}
        {reply := .call 500 {
          tool := req.tool, success := false, result := none,
          error := some errorMessage, dryRun := dryRun, timestamp := now,
          requestId := requestId, simulatedAction := none},
         audit := [auditEntry], effects := effects}

/-! ## Permission-constrained agent wrapper layer
(`agent-workflows/src/agents/base.ts`) -/

/-- The permission-constrained agent: a name and the fixed allow-list of tool
names declared at construction. -/
structure ConstrainedAgent where
  name : String
  allowedTools : List String

/-- `canUseTool`: membership of the tool name in the agent's allowed set. -/
def ConstrainedAgent.canUseTool (a : ConstrainedAgent) (toolName : String) : Bool :=
  a.allowedTools.contains toolName

/-- What the MCP client hands back to a wrapper (`result` is kept as its JSON
serialization, which is all the wrapper does with it). -/
structure MCPToolCallResponse where
  success : Bool
  result : String := "{}"
  error : Option String := none
  dryRun : Bool := false
  simulatedAction : Option String := none

/-- The MCP client as the wrapper layer sees it: tool name, inputs and intent
in, response out. -/
abbrev MCPClient := String → RawInputs → String → MCPToolCallResponse

/-- A call the wrapper delegated to the gateway through the MCP client. -/
structure ForwardedCall where
  tool : String
  inputs : RawInputs
  intent : String

/-- Replace every dash in the tool name by an underscore (LangChain
naming). -/
def underscoreName (s : String) : String :=
  String.mk (s.data.map (fun c => if c = '-' then '_' else c))

/-- The per-tool description table of `createMCPToolWrapper`, with its
default for unknown names. -/
def wrapperDescription (toolName : String) : String :=
  if toolName = "system-info" then
    "Get system information like platform, memory usage, uptime, and CPU details"
  else if toolName = "file-read" then
    "Read the contents of a file from the sandboxed directory"
  else if toolName = "file-write" then
    "Write content to a file in the sandboxed directory (runs in dry-run mode)"
  else "Call the " ++ toolName ++ " MCP tool"

/-- A LangChain tool wrapper as `createMCPToolWrapper` builds it; its
behaviour is `wrapperFunc` below, closed over `toolName` and the agent
name. -/
structure ToolWrapper where
  name : String
  description : String
  toolName : String
deriving DecidableEq, Repr

/-- `createMCPToolWrapper(mcpClient, toolName, agentName)`. -/
def createMCPToolWrapper (toolName agentName : String) : ToolWrapper :=
  let _ := agentName
  {name := underscoreName toolName,
   description := wrapperDescription toolName,
   toolName := toolName}

/-- The wrapper's `func`: build the intent string, call the MCP client
unconditionally, and format the response.  The second component records the
calls delegated to the gateway. -/
def wrapperFunc (client : MCPClient) (toolName agentName : String)
    (inputs : RawInputs) : String × List ForwardedCall :=
  let intent := "Agent \"" ++ agentName ++ "\" calling " ++ toolName
  let response := client toolName inputs intent
  let forwarded : List ForwardedCall := [⟨toolName, inputs, intent⟩]
  if !response.success then
    ("Error: " ++ response.error.getD "undefined", forwarded)
  else
    let result := response.result
    match response.simulatedAction with
    | some sa =>
      if response.dryRun && sa ≠ "" then
        (result ++ "\n\n[DRY-RUN] Simulated action: " ++ sa, forwarded)
      else (result, forwarded)
    | none => (result, forwarded)

/-- `createMCPToolWrappers`: one wrapper per allowed tool, in order. -/
def createMCPToolWrappers (allowedTools : List String) (agentName : String) :
    List ToolWrapper :=
  allowedTools.map (fun toolName => createMCPToolWrapper toolName agentName)

/-! ## Task router / orchestrator
(`agent-workflows/src/orchestration/orchestrator.ts`) -/

/-- The four terminal task classifications. -/
inductive TaskType
  | systemDiagnostic
  | fileAnalysis
  | changeProposal
  | composite
deriving DecidableEq, Repr

/-- The wire string of a task type. -/
def TaskType.str : TaskType → String
  | .systemDiagnostic => "system-diagnostic"
  | .fileAnalysis => "file-analysis"
  | .changeProposal => "change-proposal"
  | .composite => "composite"

/-- Keywords of the system/resource category. -/
def systemKeywords : List String :=
  ["system", "memory", "cpu", "platform", "uptime", "health"]

/-- Keywords of the file/content category. -/
def fileKeywords : List String := ["file", "read", "analyze", "content"]

/-- Keywords of the mutation category. -/
def changeKeywords : List String :=
  ["write", "create", "propose", "change", "modify", "update"]

/-- Whether any keyword of the category matches the lowered task with word
boundaries (the `\b(k1|k2|...)\b` regex test). -/
def hasKeyword (ws : List String) (lowerTask : String) : Bool :=
  ws.any (fun w => containsWord w lowerTask)

/-- The system/resource category regex test on the lowered task. -/
def hasSystemKeywords (lowerTask : String) : Bool :=
  hasKeyword systemKeywords lowerTask

/-- The file/content category regex test on the lowered task. -/
def hasFileKeywords (lowerTask : String) : Bool :=
  hasKeyword fileKeywords lowerTask

/-- The mutation category regex test on the lowered task. -/
def hasChangeKeywords (lowerTask : String) : Bool :=
  hasKeyword changeKeywords lowerTask

/-- The number of keyword categories present in the lowered task. -/
def keywordCount (lowerTask : String) : Nat :=
  (([hasSystemKeywords lowerTask, hasFileKeywords lowerTask,
     hasChangeKeywords lowerTask].filter (fun b => b))).length

/-- `classifyTask`: count the keyword categories present in the lowercased
task; more than one gives `composite`, otherwise the single match wins in the
order change, file, system, with system-diagnostic as the default. -/
def classifyTask (task : String) : TaskType :=
  let lowerTask := lowerStr task
  if keywordCount lowerTask > 1 then .composite
  else if hasChangeKeywords lowerTask then .changeProposal
  else if hasFileKeywords lowerTask then .fileAnalysis
  else if hasSystemKeywords lowerTask then .systemDiagnostic
  else .systemDiagnostic

/-- A tool call recorded during an agent run (its inputs and raw response are
opaque to every claim and omitted). -/
structure ToolCallRecord where
  tool : String
deriving DecidableEq, Repr

/-- Result of running one constrained agent. -/
structure AgentRunResult where
  output : String
  toolCalls : List ToolCallRecord := []
deriving DecidableEq, Repr

/-- Result of one agent execution inside an orchestrator run (durations are
wall-clock in the source and abstracted to `0` here). -/
structure AgentExecutionResult where
  agentName : String
  output : String
  toolCalls : List ToolCallRecord
  durationMs : Nat
deriving DecidableEq, Repr

/-- The three caller agents as oracles: task description in, run result out;
`error` models a thrown step. -/
structure AgentOracles where
  systemInspector : String → Except String AgentRunResult
  fileAnalyst : String → Except String AgentRunResult
  changeProposer : String → Except String AgentRunResult

/-- `runSystemDiagnostic`. -/
def runSystemDiagnostic (O : AgentOracles) (task : String) :
    Except String AgentExecutionResult :=
  (O.systemInspector task).map (fun r =>
    {agentName := "SystemInspector", output := r.output,
     toolCalls := r.toolCalls, durationMs := 0})

/-- `runFileAnalysis`. -/
def runFileAnalysis (O : AgentOracles) (task : String) :
    Except String AgentExecutionResult :=
  (O.fileAnalyst task).map (fun r =>
    {agentName := "FileAnalyst", output := r.output,
     toolCalls := r.toolCalls, durationMs := 0})

/-- `runChangeProposal`. -/
def runChangeProposal (O : AgentOracles) (task : String) :
    Except String AgentExecutionResult :=
  (O.changeProposer task).map (fun r =>
    {agentName := "ChangeProposer", output := r.output,
     toolCalls := r.toolCalls, durationMs := 0})

/-- Orchestrator input. -/
structure OrchestratorInput where
  task : String
  taskType : Option TaskType := none
  context : Option String := none

/-- Final structured orchestrator output. -/
structure OrchestratorResult where
  success : Bool
  taskType : TaskType
  agentResults : List AgentExecutionResult
  finalOutput : String
  totalDurationMs : Nat
  error : Option String := none
deriving DecidableEq, Repr

/-- Third stage of the composite workflow: the change-proposal step, when its
keywords are present.  The trace accumulates the agents invoked, a failing
step included. -/
def compositeChangeStage (O : AgentOracles) (input : OrchestratorInput)
    (results : List AgentExecutionResult) (trace : List String)
    (accumulatedContext : String) :
    Except String (List AgentExecutionResult) × List String :=
  if hasChangeKeywords (lowerStr input.task) then
    let changeTask := input.task ++ "\n\nContext: " ++ accumulatedContext
    match runChangeProposal O changeTask with
    | .error e => (.error e, trace ++ ["ChangeProposer"])
    | .ok r => (.ok (results ++ [r]), trace ++ ["ChangeProposer"])
  else (.ok results, trace)

/-- Second stage of the composite workflow: the file-analysis step, appending
its output to the accumulated context for the change stage. -/
def compositeFileStage (O : AgentOracles) (input : OrchestratorInput)
    (results : List AgentExecutionResult) (trace : List String)
    (accumulatedContext : String) :
    Except String (List AgentExecutionResult) × List String :=
  if hasFileKeywords (lowerStr input.task) then
    let fileTask := input.task ++ "\n\nContext: " ++ accumulatedContext
    match runFileAnalysis O fileTask with
    | .error e => (.error e, trace ++ ["FileAnalyst"])
    | .ok r =>
      compositeChangeStage O input (results ++ [r]) (trace ++ ["FileAnalyst"])
        (accumulatedContext ++ "\n\nFile Analysis: " ++ r.output)
  else compositeChangeStage O input results trace accumulatedContext

/-- `runCompositeWorkflow`: the system-diagnostic step first (when its
keywords are present), threading the accumulating context into the file and
change stages. -/
def runCompositeWorkflow (O : AgentOracles) (input : OrchestratorInput) :
    Except String (List AgentExecutionResult) × List String :=
  let accumulatedContext := input.context.getD ""
  if hasSystemKeywords (lowerStr input.task) then
    let systemTask := input.task ++ "\n\nContext: " ++ accumulatedContext
    match runSystemDiagnostic O systemTask with
    | .error e => (.error e, ["SystemInspector"])
    | .ok r =>
      compositeFileStage O input [r] ["SystemInspector"]
        (accumulatedContext ++ "\n\nSystem Info: " ++ r.output)
  else compositeFileStage O input [] [] accumulatedContext

/-- `synthesizeOutput`: a single agent's output verbatim, or labelled
sections joined by separators. -/
def synthesizeOutput (taskType : TaskType)
    (results : List AgentExecutionResult) : String :=
  match results with
  | [] => "No agents were invoked."
  | [r] => r.output
  | _ =>
    let sections := results.enum.map (fun p =>
      "## " ++ toString (p.1 + 1) ++ ". " ++ p.2.agentName ++ "\n\n" ++ p.2.output)
    "# Orchestration Results (" ++ taskType.str ++ ")\n\n" ++
      String.intercalate "\n\n---\n\n" sections

/-- `Orchestrator.run`: liveness check, classification (unless an explicit
type was supplied), dispatch, synthesis; any thrown step is caught and
reported as an overall failure whose `agentResults` is the array populated
so far — which stays empty, because results are only appended after the
dispatched call returns.  The second component is the invocation trace. -/
def orchestratorRun (O : AgentOracles) (healthy : Bool)
    (input : OrchestratorInput) : OrchestratorResult × List String :=
  if !healthy then
    ({success := false, taskType := .systemDiagnostic, agentResults := [],
      finalOutput := "", totalDurationMs := 0,
      error := some "MCP server is not available. Please ensure it is running."}, [])
  else
    let taskType := input.taskType.getD (classifyTask input.task)
    let stepOutcome :=
      match taskType with
      | .systemDiagnostic =>
        ((runSystemDiagnostic O input.task).map (fun r => [r]), ["SystemInspector"])
      | .fileAnalysis =>
        ((runFileAnalysis O input.task).map (fun r => [r]), ["FileAnalyst"])
      | .changeProposal =>
        ((runChangeProposal O input.task).map (fun r => [r]), ["ChangeProposer"])
      | .composite => runCompositeWorkflow O input
    match stepOutcome with
    | (.ok agentResults, trace) =>
      ({success := true, taskType := taskType, agentResults := agentResults,
        finalOutput := synthesizeOutput taskType agentResults,
        totalDurationMs := 0}, trace)
    | (.error e, trace) =>
      ({success := false, taskType := input.taskType.getD .systemDiagnostic,
        agentResults := [], finalOutput := "", totalDurationMs := 0,
        error := some e}, trace)

/-! ## Concrete stub oracles used by witnesses and counterexamples -/

/-- A filesystem where every read fails as a missing file does. -/
def fsEmpty : FsOracle := fun _ => .error "ENOENT: no such file or directory"

/-- A filesystem yielding the same five-byte file everywhere. -/
def fsHello : FsOracle := fun _ => .ok {len := 5, utf8 := "hello", base64 := "aGVsbG8="}

/-- A filesystem where every read fails as reading a directory does. -/
def fsDir : FsOracle := fun _ => .error "EISDIR: illegal operation on a directory, read"

/-- Sample OS metrics. -/
def osSample : OsOracle :=
  {platform := "linux", arch := "x64", totalmem := 100, freemem := 25,
   uptime := 7, nodeVersion := "v20.0.0"}

/-- An MCP client answering success with an empty JSON payload. -/
def clientOk : MCPClient := fun _ _ _ => {success := true}

/-- Concrete succeeding agent oracles. -/
def agentsOk : AgentOracles := {
  systemInspector := fun _ => .ok {output := "SYS"},
  fileAnalyst := fun _ => .ok {output := "FILE"},
  changeProposer := fun _ => .ok {output := "CHG"}}

/-- Concrete oracles whose file-analysis step throws. -/
def agentsFileBoom : AgentOracles := {agentsOk with fileAnalyst := fun _ => .error "boom"}

/-! ## Claim C1: the dry-run flag is derived from the registry alone -/

/-- C1: for every invocation request that matches a registered tool, wherever
the gateway reports the execution context's dry-run flag (in the call
response or in an audit entry) that flag equals the registry's classification
of the matched definition as dangerous.  The theorem quantifies over the
whole request — inputs and intent included — and over the environment, so no
caller-supplied field can make the flag false for a dangerous tool or true
for a safe one. -/
theorem gateway_dryRun_from_registry_only
    (reg : Registry) (fs : FsOracle) (os : OsOracle) (requestId : String)
    (now durationMs : Nat) (req : ToolCallRequest) (tool : RegisteredTool)
    (hlook : registryGet reg req.tool = some tool) :
    (∀ status resp,
      (gatewayInvoke reg fs os requestId now durationMs req).reply =
        GatewayReply.call status resp →
      resp.dryRun = decide (tool.definition.safety = ToolSafety.dangerous)) ∧
    (∀ entry ∈ (gatewayInvoke reg fs os requestId now durationMs req).audit,
      entry.dryRun = decide (tool.definition.safety = ToolSafety.dangerous)) := by
  unfold gatewayInvoke
  simp only [hlook]
  cases hval : tool.validate req.inputs with
  | error issues => simp only [hval]; simp
  | ok validatedInputs =>
    simp only [hval]
    rcases hex : tool.executor fs os validatedInputs
        {dryRun := decide (tool.definition.safety = ToolSafety.dangerous),
         timestamp := now, requestId := requestId} with ⟨res, effs⟩
    cases res with
    | ok result =>
      simp only [hex]
      constructor
      · intro status resp h
        cases h₂ : result.success <;> (simp [h₂] at h; rw [← h.2])
      · intro entry h
        simp at h
        rw [h]
    | error msg =>
      simp only [hex]
      constructor
      · intro status resp h
        simp at h
        rw [← h.2]
      · intro entry h
        simp at h
        rw [h]

/-- Witness for C1 at a concrete dangerous-tool request: the lookup succeeds
and the concrete response's flag equals the registry classification. -/
theorem gateway_dryRun_from_registry_only_witness :
    registryGet toolRegistry "file-write" = some fileWriteRegistered ∧
    ({tool := "file-write", success := true,
      result := some (OutData.fWrite {path := "w.txt", bytesWritten := 5, mode := "overwrite"}),
      error := none, dryRun := true, timestamp := 0, requestId := "w1",
      simulatedAction := some "Would overwrite 5 bytes to /tmp/mcp-sandbox/w.txt"} :
        ToolCallResponse).dryRun
      = decide (fileWriteRegistered.definition.safety = ToolSafety.dangerous) :=
  ⟨rfl,
   (gateway_dryRun_from_registry_only toolRegistry fsEmpty osSample "w1" 0 1
     {tool := "file-write",
      inputs := [("path", JVal.str "w.txt"), ("content", JVal.str "hello")]}
     fileWriteRegistered rfl).1 200 _ rfl⟩

/-! ## Claim C2: the dangerous executor never writes -/

/-- C2 counterexample: the file-write executor invoked in dry-run mode on a
path that escapes the sandbox returns a failure without a simulated action,
not success-with-simulation — so a dry-run invocation does not return
success for every input. -/
theorem fileWriteExecutor_dryrun_not_always_success :
    fileWriteExecutor {path := "../x", content := "hi", mode := .overwrite, createDirs := false}
        {dryRun := true, timestamp := 0, requestId := "r"} =
      ({success := false, data := none, error := some "Path escapes sandbox directory",
        simulatedAction := none}, []) := by
  rfl

/-- C2 (amended): the file-write tool is registered dangerous and its
executor performs no filesystem effect on any input; in dry-run mode it
returns success with a simulated action whenever the resolved path stays
inside the sandbox and a path-validation failure otherwise; invoked with the
dry-run flag off on an in-sandbox path it refuses with a failure result
instead of writing. -/
theorem fileWriteExecutor_contract
    (input : FileWriteInput) (context : ExecutionContext) :
    fileWriteRegistered.definition.safety = ToolSafety.dangerous ∧
    (fileWriteExecutor input context).2 = [] ∧
    ((nodeResolve SANDBOX_DIR).data.isPrefixOf (resolveAgainstSandbox input.path).data = false →
      (fileWriteExecutor input context).1 =
        {success := false, error := some "Path escapes sandbox directory"}) ∧
    ((nodeResolve SANDBOX_DIR).data.isPrefixOf (resolveAgainstSandbox input.path).data = true →
      context.dryRun = true →
      (fileWriteExecutor input context).1.success = true ∧
      (fileWriteExecutor input context).1.simulatedAction ≠ none) ∧
    ((nodeResolve SANDBOX_DIR).data.isPrefixOf (resolveAgainstSandbox input.path).data = true →
      context.dryRun = false →
      (fileWriteExecutor input context).1 =
        {success := false,
         error := some "Write operations are disabled. This tool runs in dry-run mode only."}) := by
  refine ⟨rfl, ?_, ?_, ?_, ?_⟩
  · unfold fileWriteExecutor
    cases hc : (nodeResolve SANDBOX_DIR).data.isPrefixOf
        (nodeResolve (nodeJoin SANDBOX_DIR (nodeNormalize input.path))).data <;>
      cases hd : context.dryRun <;> simp [hc, hd]
  · intro h
    unfold fileWriteExecutor
    simp only [resolveAgainstSandbox] at h
    simp [h]
  · intro h₁ h₂
    unfold fileWriteExecutor
    simp only [resolveAgainstSandbox] at h₁
    simp [h₁, h₂]
  · intro h₁ h₂
    unfold fileWriteExecutor
    simp only [resolveAgainstSandbox] at h₁
    simp [h₁, h₂]

/-- Witness for C2 at a concrete in-sandbox dry-run input. -/
theorem fileWriteExecutor_contract_witness :
    (fileWriteExecutor {path := "hello.txt", content := "hi", mode := .overwrite, createDirs := false}
        {dryRun := true, timestamp := 0, requestId := "r"}).1.success = true ∧
    (fileWriteExecutor {path := "hello.txt", content := "hi", mode := .overwrite, createDirs := false}
        {dryRun := true, timestamp := 0, requestId := "r"}).1.simulatedAction ≠ none :=
  (fileWriteExecutor_contract
    {path := "hello.txt", content := "hi", mode := .overwrite, createDirs := false}
    {dryRun := true, timestamp := 0, requestId := "r"}).2.2.2.1 (by decide) rfl

/-! ## Claim C3: the gateway fails to audit validation failures -/

/-- C3, failing input: a request for the registered tool `file-read` whose
inputs fail schema validation is answered with the 400 rejection and leaves
the audit sink empty — the gateway returns before `createAuditEntry`, so a
matched invocation produces no audit entry, against both the specification
and the server's own header comment that all calls are audited. -/
theorem gateway_skips_audit_on_validation_failure :
    registryGet toolRegistry "file-read" = some fileReadRegistered ∧
    gatewayInvoke toolRegistry fsEmpty osSample "req-3" 0 5
        {tool := "file-read", inputs := [("path", JVal.str "../etc/passwd")]} =
      {reply := .invalidInputs 400 "Invalid tool inputs" "file-read" ["Path traversal not allowed"],
       audit := [], effects := []} :=
  ⟨rfl, rfl⟩

/-! ## Claim C5: presence of the data payload and the error message -/

/-- C5 counterexample: a dry-run execution of file-write is a pure simulation
(success, populated `simulatedAction`, no side effect), yet its `data`
payload is present — so `data` is not "present iff success and not a pure
simulation". -/
theorem fileWrite_simulation_payload_present :
    (fileWriteExecutor {path := "a.txt", content := "hi", mode := .overwrite, createDirs := false}
        {dryRun := true, timestamp := 0, requestId := "r"}).1 =
      {success := true,
       data := some (OutData.fWrite {path := "a.txt", bytesWritten := 2, mode := "overwrite"}),
       error := none,
       simulatedAction := some "Would overwrite 2 bytes to /tmp/mcp-sandbox/a.txt"} := by
  rfl

/-- C5 (amended): for every result produced by any of the three executors,
the data payload is present exactly when the execution succeeded (dry-run
simulations included), and the error message is present exactly when it did
not. -/
theorem executionResult_data_error_presence
    (fs : FsOracle) (os : OsOracle) (ri : FileReadInput) (wi : FileWriteInput)
    (si : SystemInfoInput) (context : ExecutionContext) :
    ((fileReadExecutor fs ri context).1.data.isSome = (fileReadExecutor fs ri context).1.success ∧
     (fileReadExecutor fs ri context).1.error.isSome = !(fileReadExecutor fs ri context).1.success) ∧
    ((fileWriteExecutor wi context).1.data.isSome = (fileWriteExecutor wi context).1.success ∧
     (fileWriteExecutor wi context).1.error.isSome = !(fileWriteExecutor wi context).1.success) ∧
    ((systemInfoExecutor os si context).1.data.isSome = (systemInfoExecutor os si context).1.success ∧
     (systemInfoExecutor os si context).1.error.isSome = !(systemInfoExecutor os si context).1.success) := by
  refine ⟨?_, ?_, ?_⟩
  · unfold fileReadExecutor
    cases hin : (nodeResolve SANDBOX_DIR).data.isPrefixOf
        (nodeResolve (nodeJoin SANDBOX_DIR (nodeNormalize ri.path))).data
    · simp [hin]
    · cases hfs : fs (nodeResolve (nodeJoin SANDBOX_DIR (nodeNormalize ri.path))) with
      | error e => simp [hin, hfs]
      | ok buffer =>
        by_cases hsz : ri.maxBytes < (buffer.len : Int) <;> simp [hin, hfs, hsz]
  · unfold fileWriteExecutor
    cases hin : (nodeResolve SANDBOX_DIR).data.isPrefixOf
        (nodeResolve (nodeJoin SANDBOX_DIR (nodeNormalize wi.path))).data <;>
      cases hdry : context.dryRun <;> simp [hin, hdry]
  · unfold systemInfoExecutor
    simp

/-! ## Claim C6: the wrapper layer and the allow-list -/

/-- C6 counterexample: the wrapper function performs no allow-list check at
all — invoking the wrapper closure built for `file-write` forwards the call
to the gateway client and returns the formatted payload, with no
permission-denied failure, even against an allow-list containing only
`system-info`. -/
theorem wrapper_forwards_without_permission_check :
    (["system-info"] : List String).contains "file-write" = false ∧
    (wrapperFunc clientOk "file-write" "FileAnalyst" []).2.map ForwardedCall.tool = ["file-write"] ∧
    (wrapperFunc clientOk "file-write" "FileAnalyst" []).1 = "{}" :=
  ⟨rfl, rfl, rfl⟩

/-- The wrapper function always forwards exactly one call, carrying its own
closed-over tool name and the built intent string, whatever the client
answers. -/
theorem wrapperFunc_forwards (client : MCPClient) (toolName agentName : String)
    (inputs : RawInputs) :
    (wrapperFunc client toolName agentName inputs).2 =
      [⟨toolName, inputs, "Agent \"" ++ agentName ++ "\" calling " ++ toolName⟩] := by
  unfold wrapperFunc
  cases hresp : (client toolName inputs
      ("Agent \"" ++ agentName ++ "\" calling " ++ toolName)).success <;>
    cases hsim : (client toolName inputs
      ("Agent \"" ++ agentName ++ "\" calling " ++ toolName)).simulatedAction <;>
    simp only [hresp, hsim, Bool.not_true, Bool.not_false, Bool.false_eq_true,
      Bool.true_eq_false, if_true, if_false]
  split <;> rfl

/-- C6 (amended): `canUseTool` is a pure membership test on the agent's
fixed allow-list, and the wrapper layer constrains by construction rather
than by a per-call permission check: `createMCPToolWrappers` builds wrappers
for exactly the allow-listed names, and every call such a wrapper delegates
to the gateway carries its own (allow-listed) tool name — so no call naming
a tool outside the set is ever forwarded by the layer, though no
permission-denied error path exists. -/
theorem canUseTool_and_wrapper_construction
    (a : ConstrainedAgent) (toolName : String) (allowedTools : List String)
    (agentName : String) :
    (a.canUseTool toolName = true ↔ toolName ∈ a.allowedTools) ∧
    (createMCPToolWrappers allowedTools agentName).map ToolWrapper.toolName = allowedTools ∧
    (∀ w ∈ createMCPToolWrappers allowedTools agentName,
      ∀ (client : MCPClient) (inputs : RawInputs),
        ∀ fc ∈ (wrapperFunc client w.toolName agentName inputs).2,
          fc.tool = w.toolName ∧ fc.tool ∈ allowedTools) := by
  refine ⟨?_, ?_, ?_⟩
  · simp [ConstrainedAgent.canUseTool]
  · simp only [createMCPToolWrappers, List.map_map]
    exact List.map_id allowedTools
  · intro w hw client inputs fc hfc
    simp only [createMCPToolWrappers, List.mem_map] at hw
    obtain ⟨t, ht, hwt⟩ := hw
    have htn : w.toolName = t := by rw [← hwt]; rfl
    rw [wrapperFunc_forwards] at hfc
    simp only [List.mem_singleton] at hfc
    rw [hfc]
    exact ⟨rfl, by rw [htn]; exact ht⟩

/-- Witness for C6 at a concrete agent and tool name. -/
theorem canUseTool_and_wrapper_construction_witness :
    ConstrainedAgent.canUseTool ⟨"FileAnalyst", ["file-read", "system-info"]⟩ "file-read" = true :=
  (canUseTool_and_wrapper_construction ⟨"FileAnalyst", ["file-read", "system-info"]⟩
    "file-read" [] "x").1.mpr (by decide)

/-! ## Claim C7: the classification rule -/

/-- C7: the router's classification is a total function of the task text
(hence deterministic across repeated calls); it is `composite` exactly when
more than one keyword category is present in the lowercased text, the single
matching category's label when exactly one is present, and the
system-diagnostic default when none match. -/
theorem classifyTask_rule (task : String) :
    (classifyTask task = TaskType.composite ↔ 1 < keywordCount (lowerStr task)) ∧
    (hasChangeKeywords (lowerStr task) = true → hasSystemKeywords (lowerStr task) = false →
      hasFileKeywords (lowerStr task) = false → classifyTask task = TaskType.changeProposal) ∧
    (hasFileKeywords (lowerStr task) = true → hasSystemKeywords (lowerStr task) = false →
      hasChangeKeywords (lowerStr task) = false → classifyTask task = TaskType.fileAnalysis) ∧
    (hasSystemKeywords (lowerStr task) = true → hasFileKeywords (lowerStr task) = false →
      hasChangeKeywords (lowerStr task) = false → classifyTask task = TaskType.systemDiagnostic) ∧
    (hasSystemKeywords (lowerStr task) = false → hasFileKeywords (lowerStr task) = false →
      hasChangeKeywords (lowerStr task) = false → classifyTask task = TaskType.systemDiagnostic) := by
  cases hs : hasSystemKeywords (lowerStr task) <;>
    cases hf : hasFileKeywords (lowerStr task) <;>
    cases hc : hasChangeKeywords (lowerStr task) <;>
    simp [classifyTask, keywordCount, hs, hf, hc]

/-- Witness for C7: the scenario-D task is classified composite via the rule. -/
theorem classifyTask_rule_witness :
    classifyTask "check memory and propose writing hello.txt" = TaskType.composite :=
  (classifyTask_rule "check memory and propose writing hello.txt").1.mpr (by decide)

/-! ## Claim C10: unknown tools and the audit trace -/

/-- C10 counterexample: an invocation whose tool name resolves in the
registry can still leave no trace in the audit sink — a matched `file-write`
call failing input validation is rejected without an audit entry — so
unresolved lookups are not the only traceless attempts. -/
theorem resolved_validation_failure_leaves_no_trace :
    (registryGet toolRegistry "file-write").isSome = true ∧
    (gatewayInvoke toolRegistry fsEmpty osSample "req-4" 0 5
        {tool := "file-write", inputs := [("path", JVal.str "../pwn"), ("content", JVal.str "x")]}).audit = [] :=
  ⟨rfl, rfl⟩

/-- C10 (amended): a request matching no registered tool yields the 404
not-found reply naming the tool, with no audit entry and no filesystem
effect; and the audit sink stays empty for a matched tool exactly when its
input validation fails — so unresolved lookups and input-validation failures
are precisely the invocation attempts that leave no trace. -/
theorem gateway_notFound_and_audit_trace
    (reg : Registry) (fs : FsOracle) (os : OsOracle) (requestId : String)
    (now durationMs : Nat) (req : ToolCallRequest) :
    (registryGet reg req.tool = none →
      gatewayInvoke reg fs os requestId now durationMs req =
        {reply := .notFound 404 ("Tool not found: " ++ req.tool),
         audit := [], effects := []}) ∧
    (∀ tool, registryGet reg req.tool = some tool →
      ((gatewayInvoke reg fs os requestId now durationMs req).audit = [] ↔
        ∃ issues, tool.validate req.inputs = Except.error issues)) := by
  constructor
  · intro h
    unfold gatewayInvoke
    rw [h]
  · intro tool hlook
    unfold gatewayInvoke
    rw [hlook]
    cases hval : tool.validate req.inputs with
    | error issues => simp [hval]
    | ok validatedInputs =>
      rcases hex : tool.executor fs os validatedInputs
          {dryRun := decide (tool.definition.safety = ToolSafety.dangerous),
           timestamp := now, requestId := requestId} with ⟨res, effs⟩
      cases res with
      | ok result => simp [hex, hval]
      | error msg => simp [hex, hval]

/-- Witness for C10 at a concrete unknown tool name. -/
theorem gateway_notFound_and_audit_trace_witness :
    gatewayInvoke toolRegistry fsEmpty osSample "req-5" 0 5 {tool := "nope"} =
      {reply := .notFound 404 "Tool not found: nope", audit := [], effects := []} :=
  (gateway_notFound_and_audit_trace toolRegistry fsEmpty osSample "req-5" 0 5
    {tool := "nope"}).1 rfl

/-! ## Helper lemmas about verbatim containment -/

/-- Appending two strings concatenates their character data. -/
theorem strData_append (a b : String) : (a ++ b).data = a.data ++ b.data := rfl

/-- A character list is a Boolean prefix of itself. -/
theorem isPrefixOf_self (a : List Char) : a.isPrefixOf a = true := by
  induction a with
  | nil => simp [List.isPrefixOf]
  | cons c a ih => simp [List.isPrefixOf, ih]

/-- A character list is a Boolean prefix of itself followed by anything. -/
theorem isPrefixOf_append_self (a b : List Char) : a.isPrefixOf (a ++ b) = true := by
  induction a with
  | nil => simp [List.isPrefixOf]
  | cons c a ih => simp [List.isPrefixOf, ih]

/-- A Boolean prefix occurs contiguously. -/
theorem chunkWithin_of_isPrefixOf {a t : List Char} (h : a.isPrefixOf t = true) :
    chunkWithin a t = true := by
  cases t with
  | nil =>
    cases a with
    | nil => rfl
    | cons c a => simp [List.isPrefixOf] at h
  | cons c bs => simp [chunkWithin, h]

/-- Contiguous occurrence survives prepending. -/
theorem chunkWithin_prepend (x : List Char) {a t : List Char}
    (h : chunkWithin a t = true) : chunkWithin a (x ++ t) = true := by
  induction x with
  | nil => simpa using h
  | cons c x ih => simp [chunkWithin, ih]

/-! ## Claim C8: composite order and context accumulation -/

/-- C8: when the task matches all three keyword categories and each step
succeeds, the composite workflow invokes the agents in the fixed order
SystemInspector, FileAnalyst, ChangeProposer, and the task string handed to
each later step contains the output of every earlier step verbatim (through
the accumulating context). -/
theorem composite_order_and_context
    (O : AgentOracles) (input : OrchestratorInput) (r1 r2 r3 : AgentRunResult)
    (hs : hasSystemKeywords (lowerStr input.task) = true)
    (hf : hasFileKeywords (lowerStr input.task) = true)
    (hc : hasChangeKeywords (lowerStr input.task) = true)
    (h1 : O.systemInspector (input.task ++ "\n\nContext: " ++ input.context.getD "") =
      .ok r1)
    (h2 : O.fileAnalyst (input.task ++ "\n\nContext: " ++
      (input.context.getD "" ++ "\n\nSystem Info: " ++ r1.output)) = .ok r2)
    (h3 : O.changeProposer (input.task ++ "\n\nContext: " ++
      (input.context.getD "" ++ "\n\nSystem Info: " ++ r1.output ++
        "\n\nFile Analysis: " ++ r2.output)) = .ok r3) :
    runCompositeWorkflow O input =
      (.ok [{agentName := "SystemInspector", output := r1.output,
             toolCalls := r1.toolCalls, durationMs := 0},
            {agentName := "FileAnalyst", output := r2.output,
             toolCalls := r2.toolCalls, durationMs := 0},
            {agentName := "ChangeProposer", output := r3.output,
             toolCalls := r3.toolCalls, durationMs := 0}],
       ["SystemInspector", "FileAnalyst", "ChangeProposer"]) ∧
    strWithin r1.output (input.task ++ "\n\nContext: " ++
      (input.context.getD "" ++ "\n\nSystem Info: " ++ r1.output)) = true ∧
    strWithin r1.output (input.task ++ "\n\nContext: " ++
      (input.context.getD "" ++ "\n\nSystem Info: " ++ r1.output ++
        "\n\nFile Analysis: " ++ r2.output)) = true ∧
    strWithin r2.output (input.task ++ "\n\nContext: " ++
      (input.context.getD "" ++ "\n\nSystem Info: " ++ r1.output ++
        "\n\nFile Analysis: " ++ r2.output)) = true := by
  refine ⟨?_, ?_, ?_, ?_⟩
  · unfold runCompositeWorkflow compositeFileStage compositeChangeStage
    simp only [hs, hf, hc, runSystemDiagnostic, runFileAnalysis, runChangeProposal,
      h1, h2, h3, Except.map, if_true]
    rfl
  · simp only [strWithin, strData_append, List.append_assoc]
    exact chunkWithin_prepend _ (chunkWithin_prepend _ (chunkWithin_prepend _
      (chunkWithin_prepend _ (chunkWithin_of_isPrefixOf (isPrefixOf_self _)))))
  · simp only [strWithin, strData_append, List.append_assoc]
    exact chunkWithin_prepend _ (chunkWithin_prepend _ (chunkWithin_prepend _
      (chunkWithin_prepend _ (chunkWithin_of_isPrefixOf
        (isPrefixOf_append_self _ _)))))
  · simp only [strWithin, strData_append, List.append_assoc]
    exact chunkWithin_prepend _ (chunkWithin_prepend _ (chunkWithin_prepend _
      (chunkWithin_prepend _ (chunkWithin_prepend _ (chunkWithin_prepend _
        (chunkWithin_of_isPrefixOf (isPrefixOf_self _)))))))

/-- Witness for C8 at a concrete all-category task. -/
theorem composite_order_and_context_witness :
    runCompositeWorkflow agentsOk {task := "check memory and propose writing the file"} =
      (.ok [{agentName := "SystemInspector", output := "SYS", toolCalls := [], durationMs := 0},
            {agentName := "FileAnalyst", output := "FILE", toolCalls := [], durationMs := 0},
            {agentName := "ChangeProposer", output := "CHG", toolCalls := [], durationMs := 0}],
       ["SystemInspector", "FileAnalyst", "ChangeProposer"]) :=
  (composite_order_and_context agentsOk
    {task := "check memory and propose writing the file"}
    {output := "SYS"} {output := "FILE"} {output := "CHG"}
    (by decide) (by decide) (by decide) rfl rfl rfl).1

/-! ## Claim C9: a thrown composite step aborts the whole run -/

/-- C9: when an orchestrator run dispatches to the composite workflow and
any step throws, the run returns an overall failure — `success = false`, the
error message, and an empty `agentResults` with no partial per-agent results
— and a failure at the first step ends the workflow at once: the trace stops
at the failing agent whatever the later oracles would do. -/
theorem orchestrator_abort_on_composite_failure
    (O : AgentOracles) (input : OrchestratorInput) (e : String) (trace : List String)
    (hty : input.taskType.getD (classifyTask input.task) = TaskType.composite)
    (herr : runCompositeWorkflow O input = (.error e, trace)) :
    orchestratorRun O true input =
      ({success := false, taskType := input.taskType.getD TaskType.systemDiagnostic,
        agentResults := [], finalOutput := "", totalDurationMs := 0,
        error := some e}, trace) ∧
    (∀ e₁, hasSystemKeywords (lowerStr input.task) = true →
      O.systemInspector (input.task ++ "\n\nContext: " ++ input.context.getD "") =
        .error e₁ →
      runCompositeWorkflow O input = (.error e₁, ["SystemInspector"])) := by
  constructor
  · unfold orchestratorRun
    simp only [Bool.not_true, hty, herr]
    rfl
  · intro e₁ hs hErr
    unfold runCompositeWorkflow
    simp only [hs, runSystemDiagnostic, hErr, Except.map, if_true]

/-- Witness for C9 at a concrete composite task whose second step throws. -/
theorem orchestrator_abort_on_composite_failure_witness :
    orchestratorRun agentsFileBoom true {task := "check memory and propose writing the file"} =
      ({success := false, taskType := TaskType.systemDiagnostic, agentResults := [],
        finalOutput := "", totalDurationMs := 0, error := some "boom"},
       ["SystemInspector", "FileAnalyst"]) :=
  (orchestrator_abort_on_composite_failure agentsFileBoom
    {task := "check memory and propose writing the file"} "boom"
    ["SystemInspector", "FileAnalyst"] (by decide) rfl).1

/-! ## Path resolution lemmas

A path that resolves outside the sandbox root must contain the substring
`..`: without `..` segments, resolution simply files the processed segments
below the root.  The schema's `includes('..')` refinement therefore rejects
every escaping path before any executor runs. -/

/-- `hasDD` is monotone under cons. -/
theorem hasDD_cons {t : List Char} (c : Char) (h : hasDD t = true) :
    hasDD (c :: t) = true := by
  cases t with
  | nil => simp [hasDD] at h
  | cons b t => simp [hasDD, h]

/-- `splitSl` never returns the empty list. -/
theorem splitSl_ne_nil (cs : List Char) : splitSl cs ≠ [] := by
  cases cs with
  | nil => simp [splitSl]
  | cons c cs =>
    unfold splitSl
    split
    · simp
    · split <;> simp

/-- Splitting after a leading slash. -/
theorem splitSl_slash_cons (r : List Char) : splitSl ('/' :: r) = [] :: splitSl r := rfl

/-- A segment of the slash-split list containing two adjacent dots forces two
adjacent dots in the original character list. -/
theorem hasDD_of_seg (cs : List Char) :
    ∀ seg ∈ splitSl cs, hasDD seg = true → hasDD cs = true := by
  induction cs with
  | nil =>
    intro seg hm hd
    simp [splitSl] at hm
    rw [hm] at hd
    simp [hasDD] at hd
  | cons c cs ih =>
    intro seg hm hd
    by_cases hc : c = '/'
    · rw [hc] at hm ⊢
      rw [splitSl_slash_cons] at hm
      rcases List.mem_cons.mp hm with h | h
      · rw [h] at hd; simp [hasDD] at hd
      · exact hasDD_cons '/' (ih seg h hd)
    · rcases hsp : splitSl cs with _ | ⟨s, ss⟩
      · exact absurd hsp (splitSl_ne_nil cs)
      · unfold splitSl at hm
        rw [if_neg hc] at hm
        simp only [hsp] at hm
        rcases List.mem_cons.mp hm with h | h
        · cases s with
          | nil => rw [h] at hd; simp [hasDD] at hd
          | cons d s' =>
            rw [h] at hd
            by_cases hcd : c = '.' ∧ d = '.'
            · have hcs : ∃ cs', cs = d :: cs' := by
                cases cs with
                | nil => simp [splitSl] at hsp
                | cons e cs' =>
                  by_cases he : e = '/'
                  · rw [he, splitSl_slash_cons] at hsp
                    simp at hsp
                  · rcases hsp2 : splitSl cs' with _ | ⟨s2, ss2⟩
                    · exact absurd hsp2 (splitSl_ne_nil cs')
                    · unfold splitSl at hsp
                      rw [if_neg he] at hsp
                      simp only [hsp2] at hsp
                      have : e = d := by
                        have h1 := (List.cons.injEq _ _ _ _).mp hsp
                        have h2 := (List.cons.injEq _ _ _ _).mp h1.1
                        exact h2.1
                      exact ⟨cs', by rw [this]⟩
              obtain ⟨cs', hcs⟩ := hcs
              rw [hcs]
              simp [hasDD, hcd.1, hcd.2]
            · have hds : hasDD (d :: s') = true := by
                simp only [hasDD, Bool.or_eq_true, Bool.and_eq_true,
                  decide_eq_true_eq] at hd
                rcases hd with ⟨hd1, hd2⟩ | hd
                · exact absurd ⟨hd1, hd2⟩ hcd
                · exact hd
              exact hasDD_cons c (ih (d :: s')
                (by rw [hsp]; exact List.mem_cons_self _ _) hds)
        · exact hasDD_cons c (ih seg
            (by rw [hsp]; exact List.mem_cons_of_mem _ h) hd)

/-- Segments of the slash-split list contain no slash. -/
theorem noSlash_of_seg (cs : List Char) : ∀ seg ∈ splitSl cs, '/' ∉ seg := by
  induction cs with
  | nil =>
    intro seg hm
    simp [splitSl] at hm
    simp [hm]
  | cons c cs ih =>
    intro seg hm
    by_cases hc : c = '/'
    · rw [hc, splitSl_slash_cons] at hm
      rcases List.mem_cons.mp hm with h | h
      · simp [h]
      · exact ih seg h
    · rcases hsp : splitSl cs with _ | ⟨s, ss⟩
      · exact absurd hsp (splitSl_ne_nil cs)
      · unfold splitSl at hm
        rw [if_neg hc] at hm
        simp only [hsp] at hm
        rcases List.mem_cons.mp hm with h | h
        · rw [h]
          intro hmem
          rcases List.mem_cons.mp hmem with h2 | h2
          · exact hc h2.symm
          · exact ih s (by rw [hsp]; exact List.mem_cons_self _ _) h2
        · exact ih seg (by rw [hsp]; exact List.mem_cons_of_mem _ h)

/-- The cons equation of `splitSl` for a non-slash head. -/
theorem splitSl_cons_ne (c : Char) (cs : List Char) (hc : ¬(c = '/')) :
    splitSl (c :: cs) =
      match splitSl cs with
      | [] => [[c]]
      | s :: ss => (c :: s) :: ss := by
  conv_lhs => unfold splitSl
  rw [if_neg hc]

/-- Splitting a slash-free chunk followed by a slash peels the chunk off. -/
theorem splitSl_append_slash (a b : List Char) (ha : '/' ∉ a) :
    splitSl (a ++ '/' :: b) = a :: splitSl b := by
  induction a with
  | nil => simp [splitSl_slash_cons]
  | cons c a ih =>
    have hc : ¬(c = '/') := fun h => ha (by rw [h]; exact List.mem_cons_self _ _)
    have ha' : '/' ∉ a := fun h => ha (List.mem_cons_of_mem _ h)
    simp only [List.cons_append]
    rw [splitSl_cons_ne c _ hc, ih ha']

/-- Splitting a slash-free chunk gives that single segment. -/
theorem splitSl_noSlash (s : List Char) (hs : '/' ∉ s) : splitSl s = [s] := by
  induction s with
  | nil => rfl
  | cons c s ih =>
    have hc : ¬(c = '/') := fun h => hs (by rw [h]; exact List.mem_cons_self _ _)
    have hs' : '/' ∉ s := fun h => hs (List.mem_cons_of_mem _ h)
    rw [splitSl_cons_ne c _ hc, ih hs']

/-- Splitting the interleaving of slash-free segments recovers them. -/
theorem splitSl_joinSegs (segs : List (List Char)) (hne : segs ≠ [])
    (hns : ∀ s ∈ segs, '/' ∉ s) : splitSl (joinSegs segs) = segs := by
  induction segs with
  | nil => exact absurd rfl hne
  | cons s rest ih =>
    cases rest with
    | nil => exact splitSl_noSlash s (hns s (List.mem_cons_self _ _))
    | cons s₂ rest₂ =>
      have h1 : joinSegs (s :: s₂ :: rest₂) = s ++ '/' :: joinSegs (s₂ :: rest₂) := rfl
      rw [h1, splitSl_append_slash _ _ (hns s (List.mem_cons_self _ _)),
        ih (by simp) (fun x hx => hns x (List.mem_cons_of_mem _ hx))]

/-- Splitting interleaved slash-free segments followed by a slash and a
remainder. -/
theorem splitSl_joinSegs_slash (segs : List (List Char)) (r : List Char)
    (hne : segs ≠ []) (hns : ∀ s ∈ segs, '/' ∉ s) :
    splitSl (joinSegs segs ++ '/' :: r) = segs ++ splitSl r := by
  induction segs with
  | nil => exact absurd rfl hne
  | cons s rest ih =>
    cases rest with
    | nil =>
      show splitSl (s ++ '/' :: r) = [s] ++ splitSl r
      rw [splitSl_append_slash _ _ (hns s (List.mem_cons_self _ _))]
      rfl
    | cons s₂ rest₂ =>
      have h1 : joinSegs (s :: s₂ :: rest₂) ++ '/' :: r =
          s ++ '/' :: (joinSegs (s₂ :: rest₂) ++ '/' :: r) := by
        show (s ++ '/' :: joinSegs (s₂ :: rest₂)) ++ '/' :: r = _
        simp [List.append_assoc]
      rw [h1, splitSl_append_slash _ _ (hns s (List.mem_cons_self _ _)),
        ih (by simp) (fun x hx => hns x (List.mem_cons_of_mem _ hx))]
      rfl

/-- Without `..` segments, the fold of `procSeg` pushes exactly the kept
segments. -/
theorem foldl_procSeg_noDD (aa : Bool) (segs : List (List Char))
    (hdd : ∀ s ∈ segs, s ≠ ddSeg) :
    ∀ acc, segs.foldl (procSeg aa) acc = (segs.filter keepSeg).reverse ++ acc := by
  induction segs with
  | nil => intro acc; simp
  | cons s rest ih =>
    intro acc
    have hs : s ≠ ddSeg := hdd s (List.mem_cons_self _ _)
    have hrest : ∀ x ∈ rest, x ≠ ddSeg := fun x hx => hdd x (List.mem_cons_of_mem _ hx)
    by_cases h0 : s = [] ∨ s = dotSeg
    · have hp : procSeg aa acc s = acc := by
        unfold procSeg
        rcases h0 with h | h <;> simp [h]
      have hk : keepSeg s = false := by
        unfold keepSeg
        rcases h0 with h | h <;> simp [h]
      simp only [List.foldl_cons, hp, List.filter_cons, hk]
      simp only [Bool.false_eq_true, if_false]
      exact ih hrest acc
    · have h1 : ¬(s = []) := fun h => h0 (Or.inl h)
      have h2 : ¬(s = dotSeg) := fun h => h0 (Or.inr h)
      have hp : procSeg aa acc s = s :: acc := by
        unfold procSeg
        simp [h1, h2, hs]
      have hk : keepSeg s = true := by
        unfold keepSeg
        simp [h1, h2]
      simp only [List.foldl_cons, hp, List.filter_cons, hk, if_true]
      rw [ih hrest (s :: acc)]
      simp [List.append_assoc]

/-- Without `..` segments, processing is just filtering. -/
theorem procSegs_noDD (aa : Bool) (segs : List (List Char))
    (hdd : ∀ s ∈ segs, s ≠ ddSeg) :
    procSegs aa segs = segs.filter keepSeg := by
  unfold procSegs
  rw [foldl_procSeg_noDD aa segs hdd []]
  simp

/-- Joining two dot-free-pair lists with a slash creates no adjacent dots. -/
theorem hasDD_append_slash (a b : List Char) (ha : hasDD a = false)
    (hb : hasDD b = false) : hasDD (a ++ '/' :: b) = false := by
  induction a with
  | nil =>
    simp only [List.nil_append]
    cases b with
    | nil => rfl
    | cons c b' => simp [hasDD, hb]
  | cons x a' ih =>
    cases a' with
    | nil =>
      simp only [List.cons_append, List.nil_append]
      cases b with
      | nil => simp [hasDD]
      | cons c b' => simp [hasDD, hb]
    | cons y a'' =>
      simp only [hasDD, Bool.or_eq_false_iff] at ha
      simp only [List.cons_append] at ih ⊢
      simp [hasDD, ha.1, ih ha.2]

/-- Prefixing a slash creates no adjacent dots. -/
theorem hasDD_slash_cons (t : List Char) (h : hasDD t = false) :
    hasDD ('/' :: t) = false := by
  cases t with
  | nil => rfl
  | cons c t' => simp [hasDD, h]

/-- Interleaving dot-free-pair segments with slashes creates no adjacent
dots. -/
theorem hasDD_joinSegs (segs : List (List Char))
    (h : ∀ s ∈ segs, hasDD s = false) : hasDD (joinSegs segs) = false := by
  induction segs with
  | nil => rfl
  | cons s rest ih =>
    cases rest with
    | nil => exact h s (List.mem_cons_self _ _)
    | cons s₂ rest₂ =>
      show hasDD (s ++ '/' :: joinSegs (s₂ :: rest₂)) = false
      exact hasDD_append_slash _ _ (h s (List.mem_cons_self _ _))
        (ih (fun x hx => h x (List.mem_cons_of_mem _ hx)))

/-- Adding an optional leading or trailing slash creates no adjacent dots. -/
theorem hasDD_affix (core : List Char) (h : hasDD core = false)
    (p₁ p₂ : Prop) [Decidable p₁] [Decidable p₂] :
    hasDD ((if p₁ then ['/'] else []) ++ core ++ (if p₂ then ['/'] else [])) = false := by
  by_cases h₁ : p₁ <;> by_cases h₂ : p₂
  · rw [if_pos h₁, if_pos h₂]
    exact hasDD_slash_cons _ (hasDD_append_slash _ [] h rfl)
  · rw [if_pos h₁, if_neg h₂]
    simp only [List.append_nil]
    exact hasDD_slash_cons _ h
  · rw [if_neg h₁, if_pos h₂]
    simp only [List.nil_append]
    exact hasDD_append_slash _ [] h rfl
  · rw [if_neg h₁, if_neg h₂]
    simp only [List.nil_append, List.append_nil]
    exact h

/-- Normalization never produces the empty string. -/
theorem nodeNormalize_data_ne_nil (p : String) : (nodeNormalize p).data ≠ [] := by
  unfold nodeNormalize
  cases hd : p.data with
  | nil => simp
  | cons c cs =>
    simp only []
    split
    · split
      · simp
      · split <;> simp
    · rename_i hcore
      show ((if c = '/' then ['/'] else []) ++ _ ++ _ : List Char) ≠ []
      simp [hcore]

/-- The string of a normalization is never empty. -/
theorem nodeNormalize_ne_empty (p : String) : nodeNormalize p ≠ "" := by
  intro h
  exact nodeNormalize_data_ne_nil p (by rw [h])

/-- `nodeJoin` on two non-empty strings is normalization of the slashed
concatenation. -/
theorem nodeJoin_of_ne (a b : String) (ha : a ≠ "") (hb : b ≠ "") :
    nodeJoin a b = nodeNormalize (a ++ "/" ++ b) := by
  unfold nodeJoin
  simp [ha, hb]

/-- Normalization preserves freedom from adjacent dots. -/
theorem hasDD_nodeNormalize (p : String) (hp : hasDD p.data = false) :
    hasDD (nodeNormalize p).data = false := by
  unfold nodeNormalize
  cases hd : p.data with
  | nil => rfl
  | cons c cs =>
    rw [hd] at hp
    have hsegs : ∀ s ∈ splitSl (c :: cs), hasDD s = false := by
      intro s hs
      cases h2 : hasDD s
      · rfl
      · rw [hasDD_of_seg (c :: cs) s hs h2] at hp
        cases hp
    have hdd : ∀ s ∈ splitSl (c :: cs), s ≠ ddSeg := by
      intro s hs he
      have h3 := hsegs s hs
      rw [he] at h3
      simp [ddSeg, hasDD] at h3
    have hcore : hasDD (joinSegs (procSegs (!decide (c = '/')) (splitSl (c :: cs)))) = false := by
      apply hasDD_joinSegs
      intro s hs
      rw [procSegs_noDD _ _ hdd] at hs
      exact hsegs s (List.mem_of_mem_filter hs)
    simp only []
    split
    · split
      · rfl
      · split <;> rfl
    · exact hasDD_affix _ hcore _ _

/-- Resolving the constructed root-plus-segments string drops an optional
trailing slash and keeps the segments. -/
theorem nodeResolve_root_segs (K : List (List Char)) (tp : List Char)
    (htp : tp = [] ∨ tp = ['/'])
    (hKslash : ∀ s ∈ K, '/' ∉ s) (hKdd : ∀ s ∈ K, s ≠ ddSeg)
    (hKkeep : ∀ s ∈ K, keepSeg s = true) :
    nodeResolve (String.mk ('/' ::
        (joinSegs (tmpSeg :: mcpSeg :: K) ++ tp))) =
      String.mk ('/' :: joinSegs (tmpSeg :: mcpSeg :: K)) := by
  have hns : ∀ s ∈ (tmpSeg :: mcpSeg :: K), '/' ∉ s := by
    intro s hs
    simp only [List.mem_cons] at hs
    rcases hs with h | h | h
    · rw [h]; decide
    · rw [h]; decide
    · exact hKslash s h
  have hfilter : List.filter keepSeg ([] :: tmpSeg :: mcpSeg :: K) =
      tmpSeg :: mcpSeg :: K := by
    rw [List.filter_cons, List.filter_cons, List.filter_cons]
    rw [show keepSeg ([] : List Char) = false from rfl,
      show keepSeg tmpSeg = true from rfl,
      show keepSeg mcpSeg = true from rfl]
    simp [List.filter_eq_self.mpr hKkeep]
  have hdd : ∀ s ∈ ([] :: tmpSeg :: mcpSeg :: K), s ≠ ddSeg := by
    intro s hs
    simp only [List.mem_cons] at hs
    rcases hs with h | h | h | h
    · rw [h]; decide
    · rw [h]; decide
    · rw [h]; decide
    · exact hKdd s h
  rcases htp with h | h
  · rw [h, List.append_nil]
    unfold nodeResolve
    rw [show (String.mk ('/' :: joinSegs (tmpSeg :: mcpSeg :: K))).data
      = '/' :: joinSegs (tmpSeg :: mcpSeg :: K) from rfl]
    rw [splitSl_slash_cons, splitSl_joinSegs _ (by simp) hns,
      procSegs_noDD _ _ hdd, hfilter]
  · rw [h]
    unfold nodeResolve
    rw [show (String.mk ('/' ::
        (joinSegs (tmpSeg :: mcpSeg :: K) ++ ['/']))).data
      = '/' :: (joinSegs (tmpSeg :: mcpSeg :: K) ++ '/' :: []) from rfl]
    rw [splitSl_slash_cons, splitSl_joinSegs_slash _ [] (by simp) hns]
    rw [show ([] :: ((tmpSeg :: mcpSeg :: K) ++ splitSl []) :
        List (List Char)) = ([] :: tmpSeg :: mcpSeg :: K) ++ [[]] from by
      simp [splitSl]]
    rw [procSegs_noDD _ _ (by
      intro s hs
      rcases List.mem_append.mp hs with h | h
      · exact hdd s h
      · simp only [List.mem_singleton] at h
        rw [h]; decide)]
    rw [List.filter_append, hfilter]
    rw [show List.filter keepSeg [([] : List Char)] = [] from rfl]
    rw [List.append_nil]

/-- The constructed root-plus-segments string lies within the root: it is
the root itself when no segment follows, and a strict descendant otherwise. -/
theorem withinRoot_root_segs (K : List (List Char)) :
    withinRoot (String.mk ('/' ::
      joinSegs (tmpSeg :: mcpSeg :: K))) = true := by
  cases K with
  | nil => decide
  | cons k K' =>
    have he : '/' :: joinSegs (tmpSeg :: mcpSeg :: k :: K') =
        (resolvedRoot ++ "/").data ++ joinSegs (k :: K') := by
      show '/' :: (tmpSeg ++ '/' :: (mcpSeg ++ '/' :: joinSegs (k :: K'))) = _
      rw [show (resolvedRoot ++ "/").data =
        '/' :: (tmpSeg ++ '/' :: (mcpSeg ++ ['/'])) from rfl]
      simp [List.append_assoc]
    unfold withinRoot
    rw [show (String.mk ('/' :: joinSegs (tmpSeg :: mcpSeg :: k :: K'))).data
      = '/' :: joinSegs (tmpSeg :: mcpSeg :: k :: K') from rfl]
    rw [he, isPrefixOf_append_self]
    simp

/-- Normalizing the sandbox root joined with any `..`-free path yields the
root segments followed by the kept segments of the path, with an optional
trailing slash. -/
theorem nodeNormalize_sandbox_join (np : String) (hnp : hasDD np.data = false) :
    ∃ tp, (tp = [] ∨ tp = ['/']) ∧
    nodeNormalize (SANDBOX_DIR ++ "/" ++ np) =
      String.mk ('/' :: (joinSegs (tmpSeg :: mcpSeg ::
        ((splitSl np.data).filter keepSeg)) ++ tp)) := by
  have hqdata : (SANDBOX_DIR ++ "/" ++ np).data =
      '/' :: (tmpSeg ++ '/' :: (mcpSeg ++ '/' :: np.data)) := by
    show ((SANDBOX_DIR.data ++ ['/']) ++ np.data : List Char) = _
    rw [show SANDBOX_DIR.data = '/' :: (tmpSeg ++ '/' :: mcpSeg) from rfl]
    simp [List.append_assoc]
  have hsegdd : ∀ s ∈ splitSl np.data, s ≠ ddSeg := by
    intro s hs he
    have h2 : hasDD s = true := by rw [he]; decide
    rw [hasDD_of_seg np.data s hs h2] at hnp
    cases hnp
  have hsplit : splitSl ('/' :: (tmpSeg ++ '/' :: (mcpSeg ++ '/' :: np.data))) =
      [] :: tmpSeg :: mcpSeg :: splitSl np.data := by
    rw [splitSl_slash_cons, splitSl_append_slash _ _ (by decide),
      splitSl_append_slash _ _ (by decide)]
  have hproc : procSegs false (splitSl ('/' :: (tmpSeg ++ '/' ::
      (mcpSeg ++ '/' :: np.data)))) =
      tmpSeg :: mcpSeg :: (splitSl np.data).filter keepSeg := by
    rw [hsplit, procSegs_noDD]
    · rw [List.filter_cons, List.filter_cons, List.filter_cons]
      rw [show keepSeg ([] : List Char) = false from rfl,
        show keepSeg tmpSeg = true from rfl,
        show keepSeg mcpSeg = true from rfl]
      simp
    · intro s hs
      simp only [List.mem_cons] at hs
      rcases hs with h | h | h | h
      · rw [h]; decide
      · rw [h]; decide
      · rw [h]; decide
      · exact hsegdd s h
  have hcne : joinSegs (tmpSeg :: mcpSeg ::
      (splitSl np.data).filter keepSeg) ≠ [] := by
    show tmpSeg ++ '/' :: joinSegs _ ≠ []
    rw [show tmpSeg = 't' :: ['m', 'p'] from rfl]
    simp
  refine ⟨if ('/' :: (tmpSeg ++ '/' :: (mcpSeg ++ '/' :: np.data))).getLast?
      = some '/' then ['/'] else [], ?_, ?_⟩
  · split
    · exact Or.inr rfl
    · exact Or.inl rfl
  · simp only [nodeNormalize, hqdata]
    simp only [decide_True, Bool.not_true]
    rw [hproc]
    rw [if_neg hcne]
    rw [if_pos trivial]
    rfl

/-- Any path free of the substring `..` resolves against the sandbox to the
root itself or a path strictly below it. -/
theorem noDD_withinRoot (p : String) (hp : hasDD p.data = false) :
    withinRoot (resolveAgainstSandbox p) = true := by
  have hnpdd : hasDD (nodeNormalize p).data = false := hasDD_nodeNormalize p hp
  obtain ⟨tp, htp, heq⟩ := nodeNormalize_sandbox_join (nodeNormalize p) hnpdd
  unfold resolveAgainstSandbox
  rw [nodeJoin_of_ne _ _ (by decide) (nodeNormalize_ne_empty p), heq,
    nodeResolve_root_segs _ tp htp ?_ ?_ ?_, withinRoot_root_segs]
  · intro s hs
    exact noSlash_of_seg _ s (List.mem_of_mem_filter hs)
  · intro s hs he
    have h2 : hasDD s = true := by rw [he]; decide
    rw [hasDD_of_seg _ s (List.mem_of_mem_filter hs) h2] at hnpdd
    cases hnpdd
  · intro s hs
    exact List.of_mem_filter hs

/-! ## Claim C4: path escape is rejected before any filesystem access -/

/-- A path whose character data contains adjacent dots is non-empty and so
fails only the traversal refinement of the path schema. -/
theorem length_pos_of_hasDD (p : String) (h2 : hasDD p.data = true) :
    ¬(p.length < 1) := by
  cases hd : p.data with
  | nil => rw [hd] at h2; cases h2
  | cons c cs => simp [String.length, hd]

/-- A `..`-containing path is rejected by the file-read schema with the
traversal message alone (the other fields take their defaults). -/
theorem parseFileReadInputs_dd (p : String) (h2 : hasDD p.data = true) :
    parseFileReadInputs [("path", JVal.str p)] =
      .error ["Path traversal not allowed"] := by
  have h1 : ¬(p.length < 1) := length_pos_of_hasDD p h2
  unfold parseFileReadInputs
  simp only [show getField [("path", JVal.str p)] "path" = some (JVal.str p) from rfl,
    show getField [("path", JVal.str p)] "maxBytes" = none from rfl,
    show getField [("path", JVal.str p)] "encoding" = none from rfl]
  rw [if_neg h1, if_pos h2]
  rfl

/-- A `..`-containing path is rejected by the file-write schema with the
traversal message among the issues. -/
theorem parseFileWriteInputs_dd (p c : String) (h2 : hasDD p.data = true) :
    ∃ issues,
      parseFileWriteInputs [("path", JVal.str p), ("content", JVal.str c)] =
        .error issues ∧ "Path traversal not allowed" ∈ issues := by
  have h1 : ¬(p.length < 1) := length_pos_of_hasDD p h2
  by_cases hc : c.length > 100000
  · refine ⟨["Path traversal not allowed", "Content too large (max 100KB)"], ?_, by simp⟩
    unfold parseFileWriteInputs
    simp only [show getField [("path", JVal.str p), ("content", JVal.str c)] "path"
        = some (JVal.str p) from rfl,
      show getField [("path", JVal.str p), ("content", JVal.str c)] "content"
        = some (JVal.str c) from rfl,
      show getField [("path", JVal.str p), ("content", JVal.str c)] "mode" = none from rfl,
      show getField [("path", JVal.str p), ("content", JVal.str c)] "createDirs"
        = none from rfl]
    rw [if_neg h1, if_pos h2, if_pos hc]
    rfl
  · refine ⟨["Path traversal not allowed"], ?_, by simp⟩
    unfold parseFileWriteInputs
    simp only [show getField [("path", JVal.str p), ("content", JVal.str c)] "path"
        = some (JVal.str p) from rfl,
      show getField [("path", JVal.str p), ("content", JVal.str c)] "content"
        = some (JVal.str c) from rfl,
      show getField [("path", JVal.str p), ("content", JVal.str c)] "mode" = none from rfl,
      show getField [("path", JVal.str p), ("content", JVal.str c)] "createDirs"
        = none from rfl]
    rw [if_neg h1, if_pos h2, if_neg hc]
    rfl

/-- A matched tool whose validation fails makes the gateway return the 400
rejection with no audit entry and no filesystem effect. -/
theorem gatewayInvoke_invalid (reg : Registry) (fs : FsOracle) (os : OsOracle)
    (requestId : String) (now durationMs : Nat) (req : ToolCallRequest)
    (tool : RegisteredTool) (issues : List String)
    (hget : registryGet reg req.tool = some tool)
    (hval : tool.validate req.inputs = .error issues) :
    gatewayInvoke reg fs os requestId now durationMs req =
      {reply := .invalidInputs 400 "Invalid tool inputs" req.tool issues,
       audit := [], effects := []} := by
  unfold gatewayInvoke
  simp only [hget, hval]

/-- C4 counterexample: the path `.` resolves to the sandbox root itself —
not strictly within the root — yet the call is not rejected: the executor
attempts `readFile` on the root (a real filesystem access) and the failure
reported is the read error, not a path-escape rejection. -/
theorem dot_path_not_strict_yet_accessed :
    strictlyWithinRoot (resolveAgainstSandbox ".") = false ∧
    (gatewayInvoke toolRegistry fsDir osSample "req-6" 0 5
        {tool := "file-read", inputs := [("path", JVal.str ".")]}).effects =
      [FsEffect.read "/tmp/mcp-sandbox"] ∧
    (gatewayInvoke toolRegistry fsDir osSample "req-6" 0 5
        {tool := "file-read", inputs := [("path", JVal.str ".")]}).reply =
      GatewayReply.call 422
        {tool := "file-read", success := false, result := none,
         error := some "Failed to read file: EISDIR: illegal operation on a directory, read",
         dryRun := false, timestamp := 0, requestId := "req-6",
         simulatedAction := none} :=
  ⟨rfl, rfl, rfl⟩

/-- C4 (amended): every caller-supplied path whose normalized absolute
resolution against the sandbox root does not lie within the resolved root
(at it or below it) necessarily contains `..`, so both file-touching tools
reject the call at input validation with the path-traversal failure — the
code's realization of the path-escape rejection — before any executor runs:
no audit entry, no filesystem access. -/
theorem escaping_path_rejected_before_execution
    (p c : String) (fs : FsOracle) (os : OsOracle) (requestId : String)
    (now durationMs : Nat)
    (hesc : withinRoot (resolveAgainstSandbox p) = false) :
    (gatewayInvoke toolRegistry fs os requestId now durationMs
        {tool := "file-read", inputs := [("path", JVal.str p)]} =
      {reply := .invalidInputs 400 "Invalid tool inputs" "file-read"
        ["Path traversal not allowed"], audit := [], effects := []}) ∧
    (∃ issues,
      gatewayInvoke toolRegistry fs os requestId now durationMs
        {tool := "file-write", inputs := [("path", JVal.str p), ("content", JVal.str c)]} =
        {reply := .invalidInputs 400 "Invalid tool inputs" "file-write" issues,
         audit := [], effects := []} ∧ "Path traversal not allowed" ∈ issues) := by
  have hdd : hasDD p.data = true := by
    cases h : hasDD p.data
    · rw [noDD_withinRoot p h] at hesc; cases hesc
    · rfl
  constructor
  · exact gatewayInvoke_invalid _ _ _ _ _ _ _ fileReadRegistered _ rfl
      (by rw [show fileReadRegistered.validate [("path", JVal.str p)] =
          (parseFileReadInputs [("path", JVal.str p)]).map ValidatedInput.fRead from rfl,
        parseFileReadInputs_dd p hdd]; rfl)
  · obtain ⟨issues, hp, hmem⟩ := parseFileWriteInputs_dd p c hdd
    exact ⟨issues, gatewayInvoke_invalid _ _ _ _ _ _ _ fileWriteRegistered _ rfl
      (by rw [show fileWriteRegistered.validate
            [("path", JVal.str p), ("content", JVal.str c)] =
          (parseFileWriteInputs [("path", JVal.str p), ("content", JVal.str c)]).map
            ValidatedInput.fWrite from rfl, hp]; rfl), hmem⟩

/-- Witness for C4 at the end-to-end scenario path. -/
theorem escaping_path_rejected_before_execution_witness :
    gatewayInvoke toolRegistry fsEmpty osSample "req-7" 0 5
        {tool := "file-read", inputs := [("path", JVal.str "../etc/passwd")]} =
      {reply := .invalidInputs 400 "Invalid tool inputs" "file-read"
        ["Path traversal not allowed"], audit := [], effects := []} :=
  (escaping_path_rejected_before_execution "../etc/passwd" "x" fsEmpty osSample
    "req-7" 0 5 (by decide)).1

end AgentOrch
